import Mathlib

/-!
Verification of the asset record reconciliation and change-history model of
the AssetTrack IT portal (storageService.ts, the S3 storage variant, and the
AssetForm normalizers), as a shallow embedding in Lean 4.

JavaScript runtime values that flow through the storage layer are embedded
as `Prim` (scalar values: undefined, null, string, number) and `AValue`
(a scalar or an array of history entries).  Every history entry the source
constructs carries scalar `oldValue`/`newValue` payloads (the `history` key
itself is excluded from diffing), so entry payloads are embedded as `Prim`.
`Date.now()` is embedded as an explicit timestamp argument `now`; no claim
below depends on the particular clock values.
-/

/-- A scalar JavaScript value as used by the asset records. -/
inductive Prim where
  | undefv
  | nullv
  | str (s : String)
  | num (n : Int)
deriving DecidableEq, Repr

/-- One change-history entry (`HistoryEntry` in types.ts): timestamp,
changed field name, prior value, new value. -/
structure HistoryEntry where
  timestamp : Int
  field : String
  oldValue : Prim
  newValue : Prim
deriving DecidableEq, Repr

/-- A JavaScript value stored in an asset field: a scalar or an array of
history entries (the only array-valued field the storage layer handles). -/
inductive AValue where
  | prim (p : Prim)
  | arr (h : List HistoryEntry)
deriving DecidableEq, Repr

/-- The keys of the `Asset` interface of the DynamoDB variant (types.ts):
serialNumber (primary key), model, siteID, country, status, comments,
createdAt, history. -/
inductive AssetField where
  | serialNumber
  | model
  | siteID
  | country
  | status
  | comments
  | createdAt
  | history
deriving DecidableEq, Repr

/-- An asset record as a bag of runtime values, one per `Asset` key.
The source manipulates records with object spreads and dynamic indexing
(`asset[field]`), so each field slot holds an untyped runtime value. -/
structure Asset where
  serialNumber : AValue
  model : AValue
  siteID : AValue
  country : AValue
  status : AValue
  comments : AValue
  createdAt : AValue
  history : AValue
deriving DecidableEq, Repr

/-- Dynamic field read, `asset[field]`. -/
def getField (a : Asset) : AssetField → AValue
  | .serialNumber => a.serialNumber
  | .model => a.model
  | .siteID => a.siteID
  | .country => a.country
  | .status => a.status
  | .comments => a.comments
  | .createdAt => a.createdAt
  | .history => a.history

/-- Dynamic field write, as performed by an object spread overriding one key. -/
def setField (a : Asset) : AssetField → AValue → Asset
  | .serialNumber, v => { a with serialNumber := v }
  | .model, v => { a with model := v }
  | .siteID, v => { a with siteID := v }
  | .country, v => { a with country := v }
  | .status, v => { a with status := v }
  | .comments, v => { a with comments := v }
  | .createdAt, v => { a with createdAt := v }
  | .history, v => { a with history := v }

/-- The JSON/JS key string of each asset field. -/
def keyStr : AssetField → String
  | .serialNumber => "serialNumber"
  | .model => "model"
  | .siteID => "siteID"
  | .country => "country"
  | .status => "status"
  | .comments => "comments"
  | .createdAt => "createdAt"
  | .history => "history"

/-- An update payload (`Partial<Asset>`): the key/value pairs of the object
in `Object.entries` order (JavaScript objects enumerate string keys in
insertion order, with each key occurring at most once; the embedding as a
list keeps that order and is total over duplicate keys as well). -/
abbrev Updates := List (AssetField × AValue)

/-- JavaScript strict inequality `!==` on the embedded values.  Scalars
compare structurally (distinct types or distinct contents are unequal;
`undefined !== null` is true).  Arrays compare by reference in JavaScript;
an update payload's array is always a fresh object distinct from the stored
one, so an array compares unequal to everything here.  The source consults
this comparison on array values only for the `history` key, where the
enclosing conjunction discards the result. -/
def jsStrictNeq : AValue → AValue → Bool
  | .prim p, .prim q => p ≠ q
  | _, _ => true

/-- Coerce a runtime value to a scalar history-entry payload.  Every value
that actually reaches a history entry in the source is a scalar (the
`history` key is excluded from diffing); an array is mapped to `undefined`
to keep the function total. -/
def toPrim : AValue → Prim
  | .prim p => p
  | .arr _ => .undefv

/-- JavaScript truthiness of an embedded value: `undefined`, `null`, `''`
and `0` are falsy; arrays (empty ones included) are truthy. -/
def jsTruthy : AValue → Bool
  | .prim .undefv => false
  | .prim .nullv => false
  | .prim (.str s) => s ≠ ""
  | .prim (.num n) => n ≠ 0
  | .arr _ => true

/-- `[...(asset.history || [])]` — the stored history array, or `[]` when
the slot is falsy.  (A truthy scalar in the history slot never occurs: every
record reaching `updateAsset` comes from `fetchAssets`, which defaults
`history` to an array.) -/
def jsHistOrEmpty (a : Asset) : List HistoryEntry :=
  match a.history with
  | .arr l => l
  | .prim _ => []

/-- The history `field` label recorded for an updated key
(`key === 'siteID' ? 'Site Transfer' : key`, storageService.ts line 111). -/
def fieldLabel (f : AssetField) : String :=
  if f = .siteID then "Site Transfer" else keyStr f

/-- The per-key diff condition of `updateAsset` (storageService.ts line 108):
`asset[field] !== value && !['history', 'createdAt'].includes(key)`. -/
def diffCond (a : Asset) (f : AssetField) (v : AValue) : Bool :=
  jsStrictNeq (getField a f) v && !(f = .history || f = .createdAt)

/-- The history-accumulation loop of `updateAsset` (storageService.ts lines
105-116): start from a copy of the stored history and push one entry per
differing updatable key, in payload order. -/
def updateNewHistory (a : Asset) (U : Updates) (now : Int) : List HistoryEntry :=
  U.foldl
    (fun nh kv =>
      if diffCond a kv.1 kv.2 then
        nh ++ [⟨now, fieldLabel kv.1, toPrim (getField a kv.1), toPrim kv.2⟩]
      else nh)
    (jsHistOrEmpty a)

/-- `{...asset, ...updates}`: every payload key overwrites the record's
slot, later occurrences last. -/
def applySpread (a : Asset) (U : Updates) : Asset :=
  U.foldl (fun acc kv => setField acc kv.1 kv.2) a

/-- The record written back by `updateAsset` (storageService.ts line 118):
`{ ...asset, ...updates, history: newHistory }`. -/
def updatedAssetItem (a : Asset) (U : Updates) (now : Int) : Asset :=
  setField (applySpread a U) .history (.arr (updateNewHistory a U now))

/-- The new entries appended by one update, as a filter-and-map over the
payload: one entry per payload key that passes the diff condition, in
payload order. -/
def diffEntries (a : Asset) (U : Updates) (now : Int) : List HistoryEntry :=
  (U.filter (fun kv => diffCond a kv.1 kv.2)).map
    (fun kv => ⟨now, fieldLabel kv.1, toPrim (getField a kv.1), toPrim kv.2⟩)

/-- The last payload value for a key, if any (the value a left-to-right
object spread leaves in that slot). -/
def lastUpdVal : Updates → AssetField → Option AValue
  | [], _ => none
  | kv :: rest, f =>
    match lastUpdVal rest f with
    | some w => some w
    | none => if kv.1 = f then some kv.2 else none

-- ### Characterization lemmas for the update loop

theorem updateNewHistory_foldl_init (a : Asset) (U : Updates) (now : Int)
    (init : List HistoryEntry) :
    U.foldl
      (fun nh kv =>
        if diffCond a kv.1 kv.2 then
          nh ++ [⟨now, fieldLabel kv.1, toPrim (getField a kv.1), toPrim kv.2⟩]
        else nh)
      init = init ++ diffEntries a U now := by
  induction U generalizing init with
  | nil => simp [diffEntries]
  | cons kv rest ih =>
    simp only [List.foldl_cons, diffEntries, List.filter_cons]
    by_cases h : diffCond a kv.1 kv.2
    · simp only [h, if_pos, ih, diffEntries, List.map_cons]
      simp
    · simp only [h, if_neg, ih, diffEntries]
      simp [h]

/-- The history written by `updateAsset` is the stored history followed by
the computed diff entries. -/
theorem updateNewHistory_eq (a : Asset) (U : Updates) (now : Int) :
    updateNewHistory a U now = jsHistOrEmpty a ++ diffEntries a U now := by
  unfold updateNewHistory
  exact updateNewHistory_foldl_init a U now (jsHistOrEmpty a)

theorem getField_setField (a : Asset) (f g : AssetField) (v : AValue) :
    getField (setField a f v) g = if g = f then v else getField a g := by
  cases f <;> cases g <;> simp [getField, setField]

/-- The spread `{...asset, ...updates}` leaves in each slot the payload's
last value for that key, or the record's own value when the key is absent. -/
theorem getField_applySpread (a : Asset) (U : Updates) (f : AssetField) :
    getField (applySpread a U) f = (lastUpdVal U f).getD (getField a f) := by
  induction U generalizing a with
  | nil => simp [applySpread, lastUpdVal]
  | cons kv rest ih =>
    simp only [applySpread, List.foldl_cons] at *
    rw [ih (setField a kv.1 kv.2)]
    simp only [lastUpdVal]
    cases hrest : lastUpdVal rest f with
    | some w => simp [hrest]
    | none =>
      simp only [hrest, Option.getD_none, Option.getD_some]
      rw [getField_setField]
      by_cases h : kv.1 = f
      · subst h
        simp
      · rw [if_neg (fun hh => h hh.symm), if_neg h]
        simp

-- ### Concrete records used by the counterexamples and witnesses

/-- A well-formed stored record, as `fetchAssets` would return it. -/
def assetR0 : Asset :=
  { serialNumber := .prim (.str "SN1"), model := .prim (.str "X220"),
    siteID := .prim (.str "LDN01"), country := .prim (.str "UK"),
    status := .prim (.str "Normal"), comments := .prim (.str ""),
    createdAt := .prim (.num 100), history := .arr [] }

/-- A payload changing `siteID` and `createdAt`, both to values different
from the stored ones. -/
def updC1 : Updates :=
  [(.siteID, .prim (.str "PAR01")), (.createdAt, .prim (.num 999))]

/-- A payload changing `serialNumber` and `createdAt`, both to values
different from the stored ones. -/
def updC2 : Updates :=
  [(.serialNumber, .prim (.str "SN2")), (.createdAt, .prim (.num 999))]

/-- A payload re-setting `status` to the value the record already holds. -/
def updSame : Updates := [(.status, .prim (.str "Normal"))]

-- ### C1: diff behaviour of updateAsset

/-- C1 (counterexample): the payload `updC1` has two keys whose values
differ from `assetR0`'s current values, yet `updateAsset` appends exactly
one history entry (the `createdAt` key is excluded from diffing), and that
entry's `field` is `'Site Transfer'`, not the key `'siteID'`.  This refutes
the claim that one entry is appended per differing key of the payload with
`field` equal to the key. -/
theorem updateAsset_diff_claim_refuted :
    updateNewHistory assetR0 updC1 5 =
      [⟨5, "Site Transfer", .str "LDN01", .str "PAR01"⟩] ∧
    (updateNewHistory assetR0 updC1 5).length ≠ 2 ∧
    (updateNewHistory assetR0 updC1 5).map HistoryEntry.field =
      ["Site Transfer"] ∧
    "Site Transfer" ≠ "siteID" := by decide

/-- C1 (amended): the history written by `updateAsset` is the stored
history followed by exactly one entry per payload key, in payload order,
for those keys other than `history` and `createdAt` whose value differs
from the record's current value (strict `!==` comparison), each entry
carrying the old and new values and the key as its `field` — except the
key `siteID`, which is recorded under the label `'Site Transfer'`; keys
whose value is unchanged contribute no entry. -/
theorem updateAsset_diff_minimality (a : Asset) (U : Updates) (now : Int) :
    updateNewHistory a U now = jsHistOrEmpty a ++ diffEntries a U now ∧
    diffEntries a U now =
      (U.filter fun kv =>
          jsStrictNeq (getField a kv.1) kv.2
            && !(kv.1 = .history || kv.1 = .createdAt)).map
        (fun kv => ⟨now, fieldLabel kv.1, toPrim (getField a kv.1), toPrim kv.2⟩) ∧
    ∀ f p, getField a f = .prim p →
      diffEntries a ((f, .prim p) :: U) now = diffEntries a U now := by
  refine ⟨updateNewHistory_eq a U now, rfl, ?_⟩
  intro f p hfp
  simp only [diffEntries, List.filter_cons]
  have hcond : diffCond a f (.prim p) = false := by
    simp [diffCond, hfp, jsStrictNeq]
  simp [hcond]

/-- C1 (witness for the amended theorem): re-setting `status` to its
current value appends no entry on the concrete record `assetR0`. -/
theorem updateAsset_diff_minimality_witness :
    diffEntries assetR0 ((.status, .prim (.str "Normal")) :: updSame) 5 =
      diffEntries assetR0 updSame 5 :=
  (updateAsset_diff_minimality assetR0 updSame 5).2.2 .status (.str "Normal")
    (by decide)

-- ### C2: identity / createdAt under updateAsset

/-- C2 (counterexample): a payload carrying `serialNumber` and `createdAt`
overwrites both in the written record (`{...asset, ...updates, ...}`), and
the serial-number change is recorded in the diff: only `history` and
`createdAt` are excluded from diffing.  This refutes the claim that the
identity field and `createdAt` are immutable and both excluded from
diffing. -/
theorem updateAsset_identity_claim_refuted :
    getField (updatedAssetItem assetR0 updC2 5) .serialNumber =
      .prim (.str "SN2") ∧
    getField (updatedAssetItem assetR0 updC2 5) .createdAt =
      .prim (.num 999) ∧
    getField assetR0 .serialNumber = .prim (.str "SN1") ∧
    getField assetR0 .createdAt = .prim (.num 100) ∧
    (diffEntries assetR0 updC2 5).map HistoryEntry.field = ["serialNumber"] := by
  decide

/-- C2 (amended): `updateAsset` excludes only `history` and `createdAt`
from diffing — no appended entry records those fields — but neither the
serial number nor `createdAt` is immutable: when present in the payload,
each is overwritten in the written record with the payload's value (the
serial-number change is additionally diffed, and the record is re-addressed
under the new serial). -/
theorem updateAsset_frame_behaviour (a : Asset) (U : Updates) (now : Int) :
    getField (updatedAssetItem a U now) .serialNumber =
      (lastUpdVal U .serialNumber).getD (getField a .serialNumber) ∧
    getField (updatedAssetItem a U now) .createdAt =
      (lastUpdVal U .createdAt).getD (getField a .createdAt) ∧
    ∀ e ∈ diffEntries a U now, e.field ≠ "createdAt" ∧ e.field ≠ "history" := by
  refine ⟨?_, ?_, ?_⟩
  · rw [updatedAssetItem, getField_setField, if_neg (by decide),
      getField_applySpread]
  · rw [updatedAssetItem, getField_setField, if_neg (by decide),
      getField_applySpread]
  · intro e he
    simp only [diffEntries, List.mem_map, List.mem_filter] at he
    obtain ⟨kv, ⟨_, hcond⟩, rfl⟩ := he
    have h1 : kv.1 ≠ .history ∧ kv.1 ≠ .createdAt := by
      by_contra hcontra
      push_neg at hcontra
      rcases Decidable.em (kv.1 = .history) with h | h
      · simp [diffCond, h] at hcond
      · simp [diffCond, h, hcontra h] at hcond
    cases hk : kv.1 <;> simp_all [fieldLabel, keyStr]

/-- C2 (witness for the amended theorem): instantiated on `assetR0` with
payload `updC2`; the membership hypothesis is discharged on the single
diff entry the payload produces. -/
theorem updateAsset_frame_behaviour_witness :
    getField (updatedAssetItem assetR0 updC2 5) .createdAt =
      (lastUpdVal updC2 .createdAt).getD (getField assetR0 .createdAt) ∧
    (⟨5, "serialNumber", .str "SN1", .str "SN2"⟩ : HistoryEntry).field ≠
      "createdAt" :=
  ⟨(updateAsset_frame_behaviour assetR0 updC2 5).2.1,
   ((updateAsset_frame_behaviour assetR0 updC2 5).2.2 _ (by decide)).1⟩

-- ### C3: history is append-only under updateAsset

/-- C3 (confirmed): the record written by `updateAsset` carries the stored
history as a prefix of its history — existing entries are neither removed
nor reordered — and the history length never decreases. -/
theorem updateAsset_history_append_only (a : Asset) (U : Updates) (now : Int) :
    getField (updatedAssetItem a U now) .history =
      .arr (updateNewHistory a U now) ∧
    jsHistOrEmpty a <+: updateNewHistory a U now ∧
    (jsHistOrEmpty a).length ≤ (updateNewHistory a U now).length := by
  refine ⟨?_, ?_, ?_⟩
  · rw [updatedAssetItem, getField_setField, if_pos rfl]
  · rw [updateNewHistory_eq]
    exact List.prefix_append _ _
  · rw [updateNewHistory_eq]
    simp

-- ### C9: a caller-supplied history value is never written

/-- C9 (confirmed): the history of the record written by `updateAsset` is
always the fetched record's history extended with the computed diff
entries; pairs of the payload whose key is `history` neither contribute
diff entries nor reach the written record (the spread's `history` slot is
overwritten last with the computed history). -/
theorem updateAsset_payload_history_ignored (a : Asset) (U : Updates)
    (now : Int) :
    getField (updatedAssetItem a U now) .history =
      .arr (jsHistOrEmpty a ++ diffEntries a U now) ∧
    diffEntries a (U.filter fun kv => kv.1 ≠ .history) now =
      diffEntries a U now := by
  constructor
  · rw [updatedAssetItem, getField_setField, if_pos rfl, updateNewHistory_eq]
  · simp only [diffEntries]
    congr 1
    rw [List.filter_filter]
    apply List.filter_congr
    intro kv _
    by_cases h : kv.1 = AssetField.history
    · have hcond : diffCond a kv.1 kv.2 = false := by
        simp [diffCond, h]
      simp [hcond]
    · simp [h]

-- ### addAssets (storageService.ts lines 61-95): seeding and batching

/-- The item a `PutRequest` of `addAssets` carries:
`{...asset, history: asset.history || [creation entry]}` — the draft's own
history when that slot is truthy (arrays, empty ones included, are truthy),
else the initial-registration entry. -/
def putItemForAdd (now : Int) (a : Asset) : Asset :=
  setField a .history
    (if jsTruthy (getField a .history) then getField a .history
     else .arr [⟨now, "System", .nullv, .str "Initial Asset Registration"⟩])

/-- The chunking loop of `addAssets`
(`for (let i = 0; i < n; i += 25) batches.push(slice(i, i + 25))`),
written with an explicit fuel so the recursion is structural; each
iteration consumes at least one element, so fuel equal to the list length
is never exhausted. -/
def chunkAux {α : Type} : Nat → List α → List (List α)
  | 0, _ => []
  | _, [] => []
  | fuel + 1, x :: xs => ((x :: xs).take 25) :: chunkAux fuel ((x :: xs).drop 25)

/-- `addAssets`' partition of the input into batches of at most 25. -/
def chunk25 {α : Type} (l : List α) : List (List α) :=
  chunkAux l.length l

/-- The batch writes `addAssets` dispatches: all of them are created (the
`batches.map(async ...)` starts every send) before any result is awaited,
so the dispatched set does not depend on any batch's outcome. -/
def addBatches (now : Int) (assets : List Asset) : List (List Asset) :=
  (chunk25 assets).map (List.map (putItemForAdd now))

/-- `Promise.all` over void promises: resolves when all resolve, otherwise
rejects with a failing branch's error (the enclosing catch rethrows it, so
this is also what `addAssets`' caller observes).  `addAssets` returns
`Promise<void>`: there is no per-batch result value to report. -/
def promiseAllVoid : List (Except String Unit) → Except String Unit
  | [] => .ok ()
  | .ok () :: rs => promiseAllVoid rs
  | .error e :: _ => .error e

/-- The outcome `addAssets` delivers to its caller, given the backend's
per-batch outcomes. -/
def addAssetsResult (now : Int) (assets : List Asset)
    (outcome : Nat → Except String Unit) : Except String Unit :=
  promiseAllVoid ((List.range (addBatches now assets).length).map outcome)

/-- Which batch writes take effect at the backend: batch `i`'s write
completes exactly when its own send succeeds, independent of every other
batch's outcome (the sends are all in flight before `Promise.all` settles
and a rejection cancels nothing). -/
def writtenBatches (now : Int) (assets : List Asset)
    (outcome : Nat → Except String Unit) : List (Option (List Asset)) :=
  (List.range (addBatches now assets).length).map
    (fun i =>
      match outcome i with
      | .ok _ => (addBatches now assets)[i]?
      | .error _ => none)

theorem promiseAllVoid_ok_iff (rs : List (Except String Unit)) :
    promiseAllVoid rs = .ok () ↔ ∀ r ∈ rs, r = .ok () := by
  induction rs with
  | nil => simp [promiseAllVoid]
  | cons r rest ih =>
    cases r with
    | ok u => cases u; simp [promiseAllVoid, ih]
    | error e => simp [promiseAllVoid]

-- ### C4: creation seeds history

/-- C4 (confirmed): a draft whose `history` slot is absent (`undefined`) is
stored with exactly the one creation entry (`oldValue = null`,
`field = 'System'`, `newValue = 'Initial Asset Registration'`); a draft
already carrying a non-empty history array is stored with that history
unchanged. -/
theorem addAssets_seeds_history (now : Int) (a : Asset) :
    (getField a .history = .prim .undefv →
      getField (putItemForAdd now a) .history =
        .arr [⟨now, "System", .nullv, .str "Initial Asset Registration"⟩]) ∧
    ∀ l, getField a .history = .arr l → l ≠ [] →
      getField (putItemForAdd now a) .history = .arr l := by
  constructor
  · intro h
    simp [putItemForAdd, getField_setField, h, jsTruthy]
  · intro l h _
    simp [putItemForAdd, getField_setField, h, jsTruthy]

/-- A draft without a history slot. -/
def draftNoHist : Asset := { assetR0 with history := .prim .undefv }

/-- An externally-sourced history carried by an imported draft. -/
def importedHist : List HistoryEntry := [⟨1, "System", .nullv, .str "imported"⟩]

/-- A draft carrying its own non-empty history. -/
def draftWithHist : Asset := { assetR0 with history := .arr importedHist }

/-- C4 (witness): the seeding theorem applied to one draft without history
and one with an imported history. -/
theorem addAssets_seeds_history_witness :
    getField (putItemForAdd 7 draftNoHist) .history =
      .arr [⟨7, "System", .nullv, .str "Initial Asset Registration"⟩] ∧
    getField (putItemForAdd 7 draftWithHist) .history = .arr importedHist :=
  ⟨(addAssets_seeds_history 7 draftNoHist).1 (by decide),
   (addAssets_seeds_history 7 draftWithHist).2 importedHist (by decide)
     (by decide)⟩

-- ### C5: batch independence and failure reporting of addAssets

/-- A backend behaviour in which the first batch's write fails and every
other batch's write succeeds. -/
def badOutcome : Nat → Except String Unit :=
  fun i => if i = 0 then .error "Simulated batch failure" else .ok ()

/-- C5 (counterexample): on 26 assets (two batches) with the first batch's
write failing, the sibling batch's write still completes (index 1 is
written), but the caller of `addAssets` receives the rejected promise's
single error — `addAssets` returns `Promise<void>` and rethrows the first
failure, so no report of per-batch successes and failures reaches the
caller.  This refutes the claim that the caller receives a report in which
the succeeding writes are reported as succeeded and the failing ones as
failed. -/
theorem addAssets_report_claim_refuted :
    addAssetsResult 5 (List.replicate 26 assetR0) badOutcome =
      .error "Simulated batch failure" ∧
    (writtenBatches 5 (List.replicate 26 assetR0) badOutcome)[0]? =
      some none ∧
    (writtenBatches 5 (List.replicate 26 assetR0) badOutcome)[1]? =
      some (some [putItemForAdd 5 assetR0]) :=
  ⟨rfl, by decide, by decide⟩

/-- C5 (amended): a failure writing one batch does not prevent the sibling
batches' writes from completing — batch `i`'s write takes effect exactly
when its own send succeeds, whatever the other outcomes — but the caller
receives no per-batch report: `addAssets` resolves (with void) only when
every batch succeeded, and rejects with a single error as soon as any
batch failed. -/
theorem addAssets_batch_independence (now : Int) (assets : List Asset)
    (outcome : Nat → Except String Unit) :
    (∀ i b, (addBatches now assets)[i]? = some b →
      ((writtenBatches now assets outcome)[i]? = some (some b) ↔
        outcome i = .ok ())) ∧
    (addAssetsResult now assets outcome = .ok () ↔
      ∀ i < (addBatches now assets).length, outcome i = .ok ()) ∧
    ((∃ i, i < (addBatches now assets).length ∧ outcome i ≠ .ok ()) →
      ∃ msg, addAssetsResult now assets outcome = .error msg) := by
  have h2 : addAssetsResult now assets outcome = .ok () ↔
      ∀ i < (addBatches now assets).length, outcome i = .ok () := by
    unfold addAssetsResult
    rw [promiseAllVoid_ok_iff]
    constructor
    · intro h i hi
      exact h _ (List.mem_map_of_mem outcome (List.mem_range.mpr hi))
    · intro h r hr
      rcases List.mem_map.mp hr with ⟨i, hi, rfl⟩
      exact h i (List.mem_range.mp hi)
  refine ⟨?_, h2, ?_⟩
  · intro i b hib
    have hlen : i < (addBatches now assets).length := by
      rcases List.getElem?_eq_some.mp hib with ⟨h, _⟩
      exact h
    constructor
    · intro hw
      unfold writtenBatches at hw
      rw [List.getElem?_map, List.getElem?_range hlen] at hw
      cases houtcome : outcome i with
      | ok u => cases u; rfl
      | error e =>
        simp [houtcome] at hw
    · intro hok
      unfold writtenBatches
      rw [List.getElem?_map, List.getElem?_range hlen]
      simp [hok, hib]
  · rintro ⟨i, hi, hne⟩
    cases hres : addAssetsResult now assets outcome with
    | ok u =>
      cases u
      exact absurd (h2.mp hres i hi) hne
    | error e => exact ⟨e, rfl⟩

/-- C5 (witness for the amended theorem): on the concrete two-batch
scenario, the surviving batch's write is characterized by its own outcome,
and the failed first batch forces an error result. -/
theorem addAssets_batch_independence_witness :
    (writtenBatches 5 (List.replicate 26 assetR0) badOutcome)[1]? =
      some (some [putItemForAdd 5 assetR0]) :=
  ((addAssets_batch_independence 5 (List.replicate 26 assetR0) badOutcome).1
      1 [putItemForAdd 5 assetR0] (by decide)).mpr rfl

-- ### bulkUpdateAssets (storageService.ts lines 137-169)

/-- `serials.includes(a.serialNumber)`: SameValueZero membership — a string
serial matches exactly the equal strings of the list; a non-string slot
value matches nothing. -/
def serialListed (serials : List String) (a : Asset) : Bool :=
  match a.serialNumber with
  | .prim (.str s) => serials.contains s
  | _ => false

/-- The per-target diff loop of `bulkUpdateAssets` (lines 144-155), a
textual duplicate of `updateAsset`'s loop: stored history plus one entry
per differing updatable key. -/
def bulkNewHistory (a : Asset) (U : Updates) (now : Int) : List HistoryEntry :=
  U.foldl
    (fun nh kv =>
      if jsStrictNeq (getField a kv.1) kv.2
          && !(kv.1 = .history || kv.1 = .createdAt) then
        nh ++ [⟨now, fieldLabel kv.1, toPrim (getField a kv.1), toPrim kv.2⟩]
      else nh)
    (jsHistOrEmpty a)

/-- The item `bulkUpdateAssets` puts for one target (line 157):
`{ ...asset, ...updates, history: newHistory }`. -/
def bulkUpdatedItem (a : Asset) (U : Updates) (now : Int) : Asset :=
  setField (applySpread a U) .history (.arr (bulkNewHistory a U now))

/-- The put commands `bulkUpdateAssets` issues: one per stored record whose
serial number occurs in the list (lines 141-143); there is no existence
check and no other write. -/
def bulkUpdatePuts (store : List Asset) (serials : List String) (U : Updates)
    (now : Int) : List Asset :=
  (store.filter (serialListed serials)).map (fun a => bulkUpdatedItem a U now)

/-- The outcome `bulkUpdateAssets` delivers: `Promise.all` over the issued
puts' outcomes — the function has no not-found branch. -/
def bulkUpdateResult (store : List Asset) (serials : List String)
    (U : Updates) (now : Int) (send : Asset → Except String Unit) :
    Except String Unit :=
  promiseAllVoid ((bulkUpdatePuts store serials U now).map send)

-- ### C10: absent serials are silently skipped

/-- C10 (confirmed): `bulkUpdateAssets` writes exactly one updated item per
stored record whose serial number occurs in the list; when none of the
listed serials matches a stored record it issues no write and completes
without any error, and in general serials matching no record contribute no
write and raise nothing — the only failures are the issued puts' own. -/
theorem bulkUpdateAssets_skips_absent (store : List Asset)
    (serials : List String) (U : Updates) (now : Int)
    (send : Asset → Except String Unit) :
    (∀ p, p ∈ bulkUpdatePuts store serials U now ↔
      ∃ a, a ∈ store ∧ serialListed serials a = true ∧
        p = bulkUpdatedItem a U now) ∧
    ((∀ a ∈ store, serialListed serials a = false) →
      bulkUpdatePuts store serials U now = [] ∧
      bulkUpdateResult store serials U now send = .ok ()) ∧
    ((∀ p ∈ bulkUpdatePuts store serials U now, send p = .ok ()) →
      bulkUpdateResult store serials U now send = .ok ()) := by
  refine ⟨?_, ?_, ?_⟩
  · intro p
    simp only [bulkUpdatePuts, List.mem_map, List.mem_filter]
    constructor
    · rintro ⟨a, ⟨ha, hser⟩, rfl⟩
      exact ⟨a, ha, hser, rfl⟩
    · rintro ⟨a, ha, hser, rfl⟩
      exact ⟨a, ⟨ha, hser⟩, rfl⟩
  · intro hnone
    have hnil : bulkUpdatePuts store serials U now = [] := by
      unfold bulkUpdatePuts
      rw [List.filter_eq_nil_iff.mpr (by simp_all)]
      rfl
    refine ⟨hnil, ?_⟩
    unfold bulkUpdateResult
    rw [hnil]
    rfl
  · intro hok
    unfold bulkUpdateResult
    rw [promiseAllVoid_ok_iff]
    intro r hr
    rcases List.mem_map.mp hr with ⟨p, hp, rfl⟩
    exact hok p hp

/-- C10 (witness): with one stored record of serial `SN1`, serial list
`["NOPE"]` produces no write and an ok completion, and the serial list
`["NOPE", "SN1"]` — one absent serial alongside one present — also
completes without error. -/
theorem bulkUpdateAssets_skips_absent_witness :
    bulkUpdatePuts [assetR0] ["NOPE"] updSame 5 = [] ∧
    bulkUpdateResult [assetR0] ["NOPE"] updSame 5 (fun _ => .ok ()) = .ok () ∧
    bulkUpdateResult [assetR0] ["NOPE", "SN1"] updSame 5
      (fun _ => .ok ()) = .ok () :=
  ⟨((bulkUpdateAssets_skips_absent [assetR0] ["NOPE"] updSame 5
        (fun _ => .ok ())).2.1 (by decide)).1,
   ((bulkUpdateAssets_skips_absent [assetR0] ["NOPE"] updSame 5
        (fun _ => .ok ())).2.1 (by decide)).2,
   (bulkUpdateAssets_skips_absent [assetR0] ["NOPE", "SN1"] updSame 5
        (fun _ => .ok ())).2.2 (fun _ _ => rfl)⟩

-- ### Record normalizer (AssetForm, src/unnamed/part_005)

/-- The character class `[a-zA-Z]` of the site-ID pattern. -/
def isAsciiAlphaChar (c : Char) : Bool :=
  ('a' ≤ c && c ≤ 'z') || ('A' ≤ c && c ≤ 'Z')

/-- The character class `[a-zA-Z0-9]` of the site-ID pattern. -/
def isAsciiAlnumChar (c : Char) : Bool :=
  isAsciiAlphaChar c || ('0' ≤ c && c ≤ '9')

/-- `isValidSiteID` (part_005 line 30):
`/^[a-zA-Z][a-zA-Z0-9]*$/.test(id)` — the anchored regular expression
accepts exactly the strings made of one alphabetic character followed by
zero or more alphanumeric characters. -/
def isValidSiteID (id : String) : Bool :=
  match id.data with
  | [] => false
  | c :: cs => isAsciiAlphaChar c && cs.all isAsciiAlnumChar

/-- ASCII lowering of one character, as JavaScript `toLowerCase` acts on
the ASCII inputs these normalizers receive. -/
def asciiLower (c : Char) : Char :=
  if 'A' ≤ c && c ≤ 'Z' then Char.ofNat (c.toNat + 32) else c

/-- JavaScript `toLowerCase` on the ASCII strings in play. -/
def jsToLower (s : String) : String :=
  ⟨s.data.map asciiLower⟩

/-- The whitespace JavaScript `trim` strips, restricted to the characters
occurring in this code base's inputs. -/
def isJsSpace (c : Char) : Bool :=
  c = ' ' || c = '\t' || c = '\n' || c = '\r'

/-- JavaScript `trim`: strip leading and trailing whitespace. -/
def jsTrim (s : String) : String :=
  ⟨((s.data.dropWhile isJsSpace).reverse.dropWhile isJsSpace).reverse⟩

/-- Header normalization of `processRowToAsset` (part_005 line 82):
`k.toLowerCase().trim().replace(/[^a-z0-9]/g, '')`. -/
def normKey (k : String) : String :=
  ⟨(jsTrim (jsToLower k)).data.filter
    (fun c => ('a' ≤ c && c ≤ 'z') || ('0' ≤ c && c ≤ '9'))⟩

/-- Reading one key of the `normalized` row object: the object is built by
assigning `normalized[normKey k] = row[k]` over the row's entries in order,
so the last entry whose normalized key matches wins. -/
def lookupNorm (row : List (String × String)) (key : String) : Option String :=
  (row.filterMap (fun kv => if normKey kv.1 = key then some kv.2 else none)).getLast?

/-- JavaScript `a || b` over possibly-missing string cells: a missing or
empty string falls through to the alternative. -/
def jsOrStr (a b : Option String) : Option String :=
  match a with
  | some s => if s = "" then b else some s
  | none => b

/-- Truthiness of a possibly-missing string cell. -/
def truthyCell : Option String → Bool
  | some s => s ≠ ""
  | none => false

/-- `processRowToAsset` (part_005 lines 80-105): resolve aliased headers,
require truthy model/serial/site, validate the trimmed site against
`isValidSiteID`, and build the asset draft; an invalid or incomplete row
yields `null` and is dropped from the batch by the caller's filter. -/
def processRowToAsset (now : Int) (row : List (String × String)) :
    Option Asset :=
  let model := jsOrStr (lookupNorm row "model")
    (jsOrStr (lookupNorm row "assetmodel") (lookupNorm row "product"))
  let serial := jsOrStr (lookupNorm row "serialnumber")
    (jsOrStr (lookupNorm row "serial") (lookupNorm row "sn"))
  let site := jsOrStr (lookupNorm row "siteid") (lookupNorm row "site")
  let country := jsOrStr (lookupNorm row "country") (lookupNorm row "region")
  let comments := jsOrStr (lookupNorm row "comments")
    (jsOrStr (lookupNorm row "rmastatus") (lookupNorm row "notes"))
  if truthyCell model && truthyCell serial && truthyCell site then
    let siteIDStr := jsTrim (site.getD "")
    if isValidSiteID siteIDStr then
      some
        { serialNumber := .prim (.str (jsTrim (serial.getD ""))),
          model := .prim (.str (jsTrim (model.getD ""))),
          siteID := .prim (.str siteIDStr),
          country := .prim (.str (if truthyCell country then
            jsTrim (country.getD "") else "")),
          status := .prim (.str "Normal"),
          comments := .prim (.str (if truthyCell comments then
            jsTrim (comments.getD "") else "")),
          createdAt := .prim (.num now),
          history := .prim .undefv }
    else none
  else none

/-- A spreadsheet row whose site value starts with a digit. -/
def rowBadSite : List (String × String) :=
  [("Model", "Dell Latitude 5420"), ("Serial", "S1"), ("Site", "01LDN")]

/-- The same row with an alphabetic-first site value. -/
def rowGoodSite : List (String × String) :=
  [("Model", "Dell Latitude 5420"), ("Serial", "S1"), ("Site", "LDN01")]

-- ### C6: site validation

/-- C6 (confirmed): the normalizer drops a row whose site value is
`01LDN` and accepts one whose site value is `LDN01`; in general
`isValidSiteID` accepts a string exactly when it consists of an alphabetic
character followed by zero or more alphanumeric characters. -/
theorem siteID_validation_rule :
    processRowToAsset 0 rowBadSite = none ∧
    (processRowToAsset 0 rowGoodSite).isSome = true ∧
    ∀ s : String, isValidSiteID s = true ↔
      ∃ c cs, s.data = c :: cs ∧ isAsciiAlphaChar c = true ∧
        ∀ x ∈ cs, isAsciiAlnumChar x = true := by
  refine ⟨by decide, by decide, ?_⟩
  intro s
  cases hs : s.data with
  | nil =>
    simp only [isValidSiteID, hs]
    constructor
    · intro h
      cases h
    · rintro ⟨c, cs, habs, -, -⟩
      cases habs
  | cons c cs =>
    simp only [isValidSiteID, hs, Bool.and_eq_true, List.all_eq_true]
    constructor
    · rintro ⟨h1, h2⟩
      exact ⟨c, cs, rfl, h1, h2⟩
    · rintro ⟨c', cs', heq, h1, h2⟩
      cases heq
      exact ⟨h1, h2⟩

-- ### Status inference (second AssetForm variant in part_005, lines 427-450)

/-- `Object.values(AssetStatus)` in declaration order (types.ts). -/
def statusEnumValues : List String :=
  ["Normal", "RMA Requested", "RMA Shipped", "RMA Eligible",
   "RMA Not Eligible", "Deprecated", "Unknown"]

/-- JavaScript `String.prototype.includes`: the pattern occurs as a
contiguous substring. -/
def strContains (s pat : String) : Bool :=
  s.data.tails.any (fun t => pat.data.isPrefixOf t)

/-- The status mapping of `handleFileUpload`: `Normal` when the looked-up
status cell is absent or falsy; otherwise first a case-insensitive match
against the enumeration, then the substring heuristics in source order
(request, ship, not eligible, eligible, deprecated), else `Unknown`. -/
def mapRowStatus : Option String → String
  | none => "Normal"
  | some stRaw =>
    if stRaw = "" then "Normal"
    else
      match statusEnumValues.find?
          (fun ev => jsToLower ev = jsToLower (jsTrim stRaw)) with
      | some v => v
      | none =>
        if strContains (jsToLower (jsTrim stRaw)) "request" then "RMA Requested"
        else if strContains (jsToLower (jsTrim stRaw)) "ship" then "RMA Shipped"
        else if strContains (jsToLower (jsTrim stRaw)) "not eligible" then
          "RMA Not Eligible"
        else if strContains (jsToLower (jsTrim stRaw)) "eligible" then
          "RMA Eligible"
        else if strContains (jsToLower (jsTrim stRaw)) "deprecated" then
          "Deprecated"
        else "Unknown"

-- ### C7: status inference precedence

/-- C7 (confirmed): an absent status yields `Normal`; a supplied status is
first matched case-insensitively against the enumeration; failing that,
the substring heuristics fire in the precedence order request, ship,
not eligible, eligible, deprecated, with `Unknown` as the final fallback. -/
theorem status_inference_precedence (st : String) :
    mapRowStatus none = "Normal" ∧
    (∀ v, st ≠ "" →
      statusEnumValues.find?
          (fun ev => jsToLower ev = jsToLower (jsTrim st)) = some v →
      mapRowStatus (some st) = v) ∧
    (st ≠ "" →
      statusEnumValues.find?
          (fun ev => jsToLower ev = jsToLower (jsTrim st)) = none →
      ((strContains (jsToLower (jsTrim st)) "request" = true →
          mapRowStatus (some st) = "RMA Requested") ∧
       (strContains (jsToLower (jsTrim st)) "request" = false →
          strContains (jsToLower (jsTrim st)) "ship" = true →
          mapRowStatus (some st) = "RMA Shipped") ∧
       (strContains (jsToLower (jsTrim st)) "request" = false →
          strContains (jsToLower (jsTrim st)) "ship" = false →
          strContains (jsToLower (jsTrim st)) "not eligible" = true →
          mapRowStatus (some st) = "RMA Not Eligible") ∧
       (strContains (jsToLower (jsTrim st)) "request" = false →
          strContains (jsToLower (jsTrim st)) "ship" = false →
          strContains (jsToLower (jsTrim st)) "not eligible" = false →
          strContains (jsToLower (jsTrim st)) "eligible" = true →
          mapRowStatus (some st) = "RMA Eligible") ∧
       (strContains (jsToLower (jsTrim st)) "request" = false →
          strContains (jsToLower (jsTrim st)) "ship" = false →
          strContains (jsToLower (jsTrim st)) "not eligible" = false →
          strContains (jsToLower (jsTrim st)) "eligible" = false →
          strContains (jsToLower (jsTrim st)) "deprecated" = true →
          mapRowStatus (some st) = "Deprecated") ∧
       (strContains (jsToLower (jsTrim st)) "request" = false →
          strContains (jsToLower (jsTrim st)) "ship" = false →
          strContains (jsToLower (jsTrim st)) "not eligible" = false →
          strContains (jsToLower (jsTrim st)) "eligible" = false →
          strContains (jsToLower (jsTrim st)) "deprecated" = false →
          mapRowStatus (some st) = "Unknown"))) := by
  refine ⟨rfl, ?_, ?_⟩
  · intro v hne hfind
    simp [mapRowStatus, hne, hfind]
  · intro hne hfind
    have hm : mapRowStatus (some st) =
        (if strContains (jsToLower (jsTrim st)) "request" then "RMA Requested"
         else if strContains (jsToLower (jsTrim st)) "ship" then "RMA Shipped"
         else if strContains (jsToLower (jsTrim st)) "not eligible" then
           "RMA Not Eligible"
         else if strContains (jsToLower (jsTrim st)) "eligible" then
           "RMA Eligible"
         else if strContains (jsToLower (jsTrim st)) "deprecated" then
           "Deprecated"
         else "Unknown") := by
      simp only [mapRowStatus, if_neg hne, hfind]
    refine ⟨?_, ?_, ?_, ?_, ?_, ?_⟩ <;> intros <;> simp_all [hm]

/-- C7 (witness): concrete inputs exercising the enumeration match, the
`not eligible` precedence over `eligible`, and the absent-status default. -/
theorem status_inference_precedence_witness :
    mapRowStatus (some "rma shipped") = "RMA Shipped" ∧
    mapRowStatus (some "Customer notes: Not Eligible") = "RMA Not Eligible" :=
  ⟨(status_inference_precedence "rma shipped").2.1 "RMA Shipped"
      (by decide) (by decide),
   (((status_inference_precedence "Customer notes: Not Eligible").2.2
      (by decide) (by decide)).2.2.1) (by decide) (by decide) (by decide)⟩

-- ### Grouped-file (S3) repository, src/unnamed/part_002

/-- The error object a failed S3 send rejects with, as consumed by the
catch blocks: `e.name`, `e.$metadata?.httpStatusCode`, message. -/
structure S3Err where
  name : String
  httpStatusCode : Option Nat
  message : String
deriving DecidableEq, Repr

/-- The not-found test of `fetchAssetsByKey` (part_002 line 60):
`e.name === 'NoSuchKey' || e.name === 'NotFound' ||
e.$metadata?.httpStatusCode === 404`. -/
def isNotFoundErr (e : S3Err) : Bool :=
  e.name = "NoSuchKey" || e.name = "NotFound" || e.httpStatusCode = some 404

/-- A raw stored item of the S3 variant, reduced to the fields its read
path inspects (`status`, and the legacy `rmaStatus` it falls back to). -/
structure S3Item where
  id : AValue
  status : AValue
  rmaStatus : AValue
deriving DecidableEq, Repr

/-- `{...item, status: item.status || item.rmaStatus || AssetStatus.Normal}`
(part_002 lines 53-56). -/
def normalizeS3Item (it : S3Item) : S3Item :=
  { it with status :=
      if jsTruthy it.status then it.status
      else if jsTruthy it.rmaStatus then it.rmaStatus
      else .prim (.str "Normal") }

/-- `fetchAssetsByKey` (part_002 lines 41-66): a successful response's body
is parsed and normalized; a missing body yields `[]`; a `NoSuchKey` /
`NotFound` / 404 error yields `[]`; and every other error is logged and
ALSO yields `[]` — the catch block's final `return []` applies to
authorization and transport failures alike, so the function never rejects. -/
def fetchAssetsByKey (resp : Except S3Err (Option (List S3Item))) :
    Except String (List S3Item) :=
  match resp with
  | .ok (some items) => .ok (items.map normalizeS3Item)
  | .ok none => .ok []
  | .error e => if isNotFoundErr e then .ok [] else .ok []

/-- `Promise.all` over the per-key fetch promises, keeping results. -/
def promiseAllKeep : List (Except String (List S3Item)) →
    Except String (List (List S3Item))
  | [] => .ok []
  | .ok x :: rs =>
    match promiseAllKeep rs with
    | .ok xs => .ok (x :: xs)
    | .error e => .error e
  | .error e :: _ => .error e

/-- `fetchAssets` of the S3 variant (part_002 lines 68-105): list the
bucket's asset keys (a listing failure is caught and rethrown as
`'Could not connect to S3 Bucket.'`), drop falsy keys, fetch every key in
parallel, and flatten.  (The early return on an empty listing yields the
same `[]` as flattening nothing.) -/
def s3FetchAssets (listResp : Except S3Err (List String))
    (objectResp : String → Except S3Err (Option (List S3Item))) :
    Except String (List S3Item) :=
  match listResp with
  | .error _ => .error "Could not connect to S3 Bucket."
  | .ok contents =>
    match promiseAllKeep ((contents.filter (fun k => k ≠ "")).map
        (fun k => fetchAssetsByKey (objectResp k))) with
    | .ok results => .ok results.flatten
    | .error _ => .error "Could not connect to S3 Bucket."

/-- An authorization failure: distinct from every not-found shape. -/
def accessDeniedErr : S3Err := ⟨"AccessDenied", some 403, "Access Denied"⟩

theorem fetchAssetsByKey_ok (resp : Except S3Err (Option (List S3Item))) :
    ∃ items, fetchAssetsByKey resp = .ok items := by
  match resp with
  | .ok (some items) => exact ⟨items.map normalizeS3Item, rfl⟩
  | .ok none => exact ⟨[], rfl⟩
  | .error e =>
    refine ⟨[], ?_⟩
    unfold fetchAssetsByKey
    exact ite_self _

theorem promiseAllKeep_ok (rs : List (Except String (List S3Item)))
    (h : ∀ r ∈ rs, ∃ x, r = .ok x) :
    ∃ xs, promiseAllKeep rs = .ok xs := by
  induction rs with
  | nil => exact ⟨[], rfl⟩
  | cons r rest ih =>
    obtain ⟨x, hx⟩ := h r (by simp)
    subst hx
    obtain ⟨xs, hxs⟩ := ih (fun r hr => h r (by simp [hr]))
    exact ⟨x :: xs, by simp [promiseAllKeep, hxs]⟩

-- ### C8: error mapping of the grouped-file read path

/-- C8 (counterexample): an authorization failure (`AccessDenied`, HTTP
403) is not a not-found condition, yet `fetchAssetsByKey` maps it to the
empty result instead of a thrown error.  This refutes the claim that every
non-not-found failure of fetching a stored group is mapped to a thrown
error and never to an empty result. -/
theorem s3_error_claim_refuted :
    isNotFoundErr accessDeniedErr = false ∧
    fetchAssetsByKey (.error accessDeniedErr) = .ok [] :=
  ⟨rfl, rfl⟩

/-- C8 (amended): the grouped-file read path maps a backend not-found
condition to an empty result rather than an error, and maps every other
failure of fetching a stored group to the empty result as well (the error
is only logged); the only failure `fetchAssets` surfaces as a thrown error
carrying a message is a failure of the bucket listing itself. -/
theorem s3_error_mapping (e : S3Err)
    (objectResp : String → Except S3Err (Option (List S3Item))) :
    fetchAssetsByKey (.error e) = .ok [] ∧
    s3FetchAssets (.error e) objectResp =
      .error "Could not connect to S3 Bucket." ∧
    ∀ contents, ∃ items,
      s3FetchAssets (.ok contents) objectResp = .ok items := by
  refine ⟨?_, rfl, ?_⟩
  · unfold fetchAssetsByKey
    exact ite_self _
  · intro contents
    obtain ⟨xs, hxs⟩ := promiseAllKeep_ok
      ((contents.filter (fun k => k ≠ "")).map
        (fun k => fetchAssetsByKey (objectResp k)))
      (by
        intro r hr
        rcases List.mem_map.mp hr with ⟨k, _, rfl⟩
        exact fetchAssetsByKey_ok (objectResp k))
    have hstep : s3FetchAssets (.ok contents) objectResp =
        match promiseAllKeep ((contents.filter (fun k => k ≠ "")).map
          (fun k => fetchAssetsByKey (objectResp k))) with
        | .ok results => .ok results.flatten
        | .error _ => .error "Could not connect to S3 Bucket." := rfl
    exact ⟨xs.flatten, by rw [hstep, hxs]⟩

/-- C6 (witness): the validity of `LDN01` recovered from the pattern
characterization at a concrete decomposition. -/
theorem siteID_validation_rule_witness : isValidSiteID "LDN01" = true :=
  (siteID_validation_rule.2.2 "LDN01").mpr
    ⟨'L', ['D', 'N', '0', '1'], by decide, by decide, by decide⟩
